import Mathlib

/-!
Verification of the usage-analytics engine of the claude-usage-dashboard
backend (`app/services/data_service.py`, `app/routers/websocket.py`).

Shallow embedding conventions:
* instants are rationals measured in minutes; a duration of one hour is 60;
* a `UsageEntry` mirrors `claude_monitor.core.models.UsageEntry` as consumed
  by the data service: `tsUtc` is the instant of the timestamp, `tzOffset`
  the offset (in minutes) of the zone the timestamp itself carries, and
  `hasTz` whether the Python datetime is timezone-aware (`tzinfo` truthy);
* Python float arithmetic is modelled over `ℚ`; `round(x, n)` is modelled
  with the Mathlib `round` (no statement below depends on tie behaviour);
* Python calendar dates are day numbers: the date of instant `t` in a zone
  with offset `off` minutes is `⌊(t + off) / 1440⌋`.
-/

namespace UsageDashboard

/-- One metered usage record, as produced by the external reader. -/
structure UsageEntry where
  tsUtc : ℚ
  tzOffset : ℤ
  hasTz : Bool
  input_tokens : ℕ
  output_tokens : ℕ
  cache_creation_tokens : ℕ
  cache_read_tokens : ℕ
  cost_usd : ℚ
  model : String
  deriving DecidableEq, Repr

/-- Model of `total_tokens` of one entry: the sum of the four counters
(`e.input_tokens + e.output_tokens + e.cache_creation_tokens + e.cache_read_tokens`
as summed inline throughout `data_service.py`). -/
def totalTokens (e : UsageEntry) : ℕ :=
  e.input_tokens + e.output_tokens + e.cache_creation_tokens + e.cache_read_tokens

/-- Calendar date (day number) of instant `t` in a zone with offset `off` minutes. -/
def dateAt (t : ℚ) (off : ℤ) : ℤ := ⌊(t + (off : ℚ)) / 1440⌋

/-- The Python `e.timestamp.date()`: the calendar date in the zone of the timestamp itself. -/
def tsDate (e : UsageEntry) : ℤ := dateAt e.tsUtc e.tzOffset

/-- The Python `e.timestamp.hour`: hour of day in the zone of the timestamp itself. -/
def hourOf (e : UsageEntry) : ℤ := (⌊(e.tsUtc + (e.tzOffset : ℚ)) / 60⌋) % 24

/-- Model of `round(x, 1)` modelled over `ℚ`. -/
def round1 (x : ℚ) : ℚ := (round (x * 10) : ℤ) / 10

/-- Model of `round(x, 2)` modelled over `ℚ`. -/
def round2 (x : ℚ) : ℚ := (round (x * 100) : ℤ) / 100

/-- Model of `round(x, 4)` modelled over `ℚ`. -/
def round4 (x : ℚ) : ℚ := (round (x * 10000) : ℤ) / 10000

/-- Result shape of `DataService._calculate_token_breakdown`. -/
structure TokenBreakdown where
  input_tokens : ℕ
  output_tokens : ℕ
  cache_creation_tokens : ℕ
  cache_read_tokens : ℕ
  total_tokens : ℕ
  deriving DecidableEq, Repr

/-- Model of `DataService._calculate_token_breakdown`: sums the four counters over the
entries; `total` is the sum of the four sums. -/
def calculate_token_breakdown (entries : List UsageEntry) : TokenBreakdown :=
  { input_tokens := (entries.map (fun e => e.input_tokens)).sum
    output_tokens := (entries.map (fun e => e.output_tokens)).sum
    cache_creation_tokens := (entries.map (fun e => e.cache_creation_tokens)).sum
    cache_read_tokens := (entries.map (fun e => e.cache_read_tokens)).sum
    total_tokens := (entries.map (fun e => e.input_tokens)).sum +
      (entries.map (fun e => e.output_tokens)).sum +
      (entries.map (fun e => e.cache_creation_tokens)).sum +
      (entries.map (fun e => e.cache_read_tokens)).sum }

/-- Result shape of `DataService._calculate_session_info`
(the display string `remaining_formatted` is omitted). -/
structure SessionInfoResponse where
  session_start : Option ℚ
  session_end : Option ℚ
  remaining_minutes : ℚ
  is_active : Bool
  tokens_in_window : ℕ
  cost_in_window : ℚ
  deriving DecidableEq, Repr

/-- The filter `[e for e in entries if e.timestamp >= cutoff]` used by both
the session-info and the burn-rate computation. -/
def window_filter (entries : List UsageEntry) (cutoff : ℚ) : List UsageEntry :=
  entries.filter (fun e => decide (cutoff ≤ e.tsUtc))

/-- Model of `min(window_entries, key=lambda e: e.timestamp).timestamp`:
the least timestamp of a list of entries, `none` on the empty list. -/
def minTs? : List UsageEntry → Option ℚ
  | [] => none
  | e :: es => some (es.foldl (fun m x => min m x.tsUtc) e.tsUtc)

/-- Model of `DataService._calculate_session_info`: rolling session window of
`window_hours` hours ending at `now` (minutes); `window_start` is
`now - 60 * window_hours` and the session is anchored at the least
in-window timestamp. -/
def calculate_session_info (entries : List UsageEntry) (window_hours : ℚ)
    (now : ℚ) : SessionInfoResponse :=
  match minTs? (window_filter entries (now - 60 * window_hours)) with
  | none =>
      { session_start := none
        session_end := none
        remaining_minutes := 0
        is_active := false
        tokens_in_window := 0
        cost_in_window := 0 }
  | some session_start =>
      { session_start := some session_start
        session_end := some (session_start + 60 * window_hours)
        remaining_minutes := max 0 (session_start + 60 * window_hours - now)
        is_active := decide (0 < max 0 (session_start + 60 * window_hours - now))
        tokens_in_window :=
          ((window_filter entries (now - 60 * window_hours)).map totalTokens).sum
        cost_in_window :=
          ((window_filter entries (now - 60 * window_hours)).map
            (fun e => e.cost_usd)).sum }

/-- Result shape of `DataService._calculate_burn_rate`. -/
structure BurnRateInfo where
  tokens_per_minute : ℚ
  cost_per_hour : ℚ
  deriving DecidableEq, Repr

/-- Model of `DataService._calculate_burn_rate`: consumption rate over the last
`minutes_window` minutes before `now`. -/
def calculate_burn_rate (entries : List UsageEntry) (minutes_window : ℚ)
    (now : ℚ) : BurnRateInfo :=
  match minTs? (window_filter entries (now - minutes_window)) with
  | none => { tokens_per_minute := 0, cost_per_hour := 0 }
  | some first_ts =>
      { tokens_per_minute :=
          round2 ((((window_filter entries (now - minutes_window)).map totalTokens).sum : ℚ) /
            max (now - first_ts) 1)
        cost_per_hour :=
          round4 (((window_filter entries (now - minutes_window)).map
            (fun e => e.cost_usd)).sum / max (now - first_ts) 1 * 60) }

/-- Result shape of `get_today_stats` / `get_daily_stats` (the hourly
histogram is kept as a counting function on hours). -/
structure DailyStatsResponse where
  date : ℤ
  total_requests : ℕ
  tokens : TokenBreakdown
  total_cost_usd : ℚ
  models_used : List String
  hourly_distribution : ℤ → ℕ

/-- The per-day aggregation body shared verbatim by `get_today_stats`,
`get_daily_stats` and the loop body of `get_history`: request count, token
breakdown, cost sum, distinct non-empty model ids, hour-of-day histogram. -/
def mkDailyStats (d : ℤ) (l : List UsageEntry) : DailyStatsResponse :=
  { date := d
    total_requests := l.length
    tokens := calculate_token_breakdown l
    total_cost_usd := (l.map (fun e => e.cost_usd)).sum
    models_used := ((l.filter (fun e => decide (¬ e.model = ""))).map
      (fun e => e.model)).dedup
    hourly_distribution := fun h => (l.filter (fun e => decide (hourOf e = h))).length }

/-- The filter of `DataService.get_today_stats` (line 312-321):
`e.timestamp.date() == today or (e.timestamp.astimezone().date() == today
if e.timestamp.tzinfo else e.timestamp.date() == today)`, where `today`
is the local calendar date of the host and `local_off` the host zone offset. -/
def today_filter_pred (local_off : ℤ) (today : ℤ) (e : UsageEntry) : Prop :=
  tsDate e = today ∨
    (if e.hasTz then dateAt e.tsUtc local_off = today else tsDate e = today)

instance (local_off today : ℤ) (e : UsageEntry) :
    Decidable (today_filter_pred local_off today e) := by
  unfold today_filter_pred; infer_instance

/-- Model of `DataService.get_today_stats`, over an already-loaded entry list:
`today = date.today()` is the local calendar date of `now`. -/
def get_today_stats (entries : List UsageEntry) (local_off : ℤ) (now : ℚ) :
    DailyStatsResponse :=
  mkDailyStats (dateAt now local_off)
    (entries.filter (fun e =>
      decide (today_filter_pred local_off (dateAt now local_off) e)))

/-- Model of `DataService.get_daily_stats`, over an already-loaded entry list:
filters by `e.timestamp.date() == target_date` only. -/
def get_daily_stats (entries : List UsageEntry) (target_date : ℤ) :
    DailyStatsResponse :=
  mkDailyStats target_date (entries.filter (fun e => decide (tsDate e = target_date)))

/-- Result shape of `DataService.get_history`. -/
structure HistoryResponse where
  days_requested : ℕ
  days_with_data : ℕ
  daily_stats : List DailyStatsResponse
  total_tokens : ℕ
  total_cost_usd : ℚ
  range_start : Option ℤ
  range_end : Option ℤ

/-- Model of `sorted(by_date.keys())` in `get_history`: the distinct dates present,
in ascending order. -/
def history_dates (entries : List UsageEntry) : List ℤ :=
  List.insertionSort (· ≤ ·) (entries.map tsDate).dedup

/-- The `daily_stats` list built by the loop of `get_history`: one per-day entry
(in ascending date order) aggregating the records of that calendar date. -/
def history_daily (entries : List UsageEntry) : List DailyStatsResponse :=
  (history_dates entries).map
    (fun d => mkDailyStats d (entries.filter (fun e => decide (tsDate e = d))))

/-- Model of `DataService.get_history`: group the loaded entries by
`e.timestamp.date()`, build one `DailyStatsResponse` per date in ascending
date order (`sorted(by_date.keys())`), then total over the per-day stats
and report the first/last date present. -/
def get_history (entries : List UsageEntry) (days : ℕ) : HistoryResponse :=
  { days_requested := days
    days_with_data := (history_daily entries).length
    daily_stats := history_daily entries
    total_tokens := ((history_daily entries).map (fun ds => ds.tokens.total_tokens)).sum
    total_cost_usd := ((history_daily entries).map (fun ds => ds.total_cost_usd)).sum
    range_start := (history_daily entries).head?.map (fun ds => ds.date)
    range_end := (history_daily entries).getLast?.map (fun ds => ds.date) }

/-- Model of `entry.model or "unknown"` (empty model id normalized to `"unknown"`). -/
def modelKey (e : UsageEntry) : String := if e.model = "" then "unknown" else e.model

/-- Model of `entry.input_tokens + entry.output_tokens`: the weight
`get_plan_usage` accumulates per model when it recomputes the model
distribution from raw entries (line 684). -/
def ioTokenWeight (e : UsageEntry) : ℕ := e.input_tokens + e.output_tokens

/-- Model of `model_tokens[model]` of `get_plan_usage`: input+output tokens of the
entries whose (normalized) model id is `m`. -/
def model_tokens (entries : List UsageEntry) (m : String) : ℕ :=
  ((entries.filter (fun e => decide (modelKey e = m))).map ioTokenWeight).sum

/-- Model of `total_model_tokens` of `get_plan_usage`: sum of all per-model weights,
i.e. input+output tokens over all entries. -/
def total_model_tokens (entries : List UsageEntry) : ℕ :=
  (entries.map ioTokenWeight).sum

/-- The percentage share `get_plan_usage` stores in `model_distribution`
for model `m` (fallback branch, lines 686-690):
`round(tokens / total * 100, 1)` when the total is positive, else `0.0`. -/
def model_share (entries : List UsageEntry) (m : String) : ℚ :=
  if 0 < total_model_tokens entries then
    round1 ((model_tokens entries m : ℚ) / (total_model_tokens entries : ℚ) * 100)
  else 0

/-- The share claimed by the specification sentence, stated from its words
for comparison with `model_share`: each model weighted by its **total**
tokens (all four counters) and normalized by the total tokens across models. -/
def model_share_by_total_tokens (entries : List UsageEntry) (m : String) : ℚ :=
  if 0 < (entries.map totalTokens).sum then
    round1
      ((((entries.filter (fun e => decide (modelKey e = m))).map totalTokens).sum : ℚ) /
        ((entries.map totalTokens).sum : ℚ) * 100)
  else 0

/-- The unrounded percentage share of model `m` (weights as in the code). -/
def unrounded_share (entries : List UsageEntry) (m : String) : ℚ :=
  (model_tokens entries m : ℚ) / (total_model_tokens entries : ℚ) * 100

/-- The exhaustion-prediction slice of `DataService.get_plan_usage`
(lines 692-702): the burn rate is computed over the default 30-minute
window; a prediction exists only when `tokens_per_minute > 0` and the
block's token total is strictly below the plan's token limit, and then is
`now + (token_limit - total_tokens) / tokens_per_minute` minutes. -/
def tokens_run_out (entries : List UsageEntry) (total_tokens token_limit : ℤ)
    (now : ℚ) : Option ℚ :=
  let burn_rate := calculate_burn_rate entries 30 now
  if 0 < burn_rate.tokens_per_minute ∧ total_tokens < token_limit then
    some (now + ((token_limit : ℚ) - (total_tokens : ℚ)) / burn_rate.tokens_per_minute)
  else none

/-- Model of `CacheEntry` of `data_service.py`: payload plus absolute expiry instant
(`expires_at = time.time() + ttl` is fixed at `set` time). -/
structure DCacheEntry (α : Type) where
  data : α
  expires_at : ℚ

/-- The state of `DataCache`: one optional entry per string key. -/
def DataCache (α : Type) : Type := String → Option (DCacheEntry α)

/-- Model of `CacheEntry.is_expired`: `time.time() > self.expires_at`. -/
def DCacheEntry.is_expired (e : DCacheEntry α) (now : ℚ) : Bool :=
  decide (e.expires_at < now)

/-- Model of `DataCache.get`: return the data of the entry when present and not expired;
delete the entry (and answer absent) when present but expired; answer
absent and leave the store untouched otherwise.  Returns the answer paired
with the post-call store. -/
def DataCache.get (c : DataCache α) (key : String) (now : ℚ) :
    Option α × DataCache α :=
  match c key with
  | none => (none, c)
  | some entry =>
      if entry.is_expired now then
        (none, fun k => if k = key then none else c k)
      else (some entry.data, c)

/-- Model of `DataCache.set`: store the value under `key` with expiry `now + ttl`. -/
def DataCache.set (c : DataCache α) (key : String) (data : α) (ttl : ℚ)
    (now : ℚ) : DataCache α :=
  fun k => if k = key then some { data := data, expires_at := now + ttl } else c k

/-- Result of one `ConnectionManager.broadcast` pass: the sequence of
delivery attempts (subscriber, payload) in order, and the registry after
the post-pass cleanup. -/
structure TickResult (σ : Type) where
  attempts : List (σ × String)
  registry : List σ

/-- The delivery loop of `ConnectionManager.broadcast` (lines 79-84): walk
the snapshot of connections, attempt every send, and collect the failed
subscribers; the pass never stops early and never touches the registry. -/
def deliver_pass (msg : String) (sendOk : σ → Bool) :
    List σ → List (σ × String) × List σ
  | [] => ([], [])
  | c :: cs =>
      let rest := deliver_pass msg sendOk cs
      ((c, msg) :: rest.1, if sendOk c then rest.2 else c :: rest.2)

/-- Model of `ConnectionManager.broadcast`: return immediately on an empty registry;
otherwise serialize the message once, attempt delivery to every subscriber
in the registry snapshot, and only after the full pass remove the failed
subscribers from the registry. -/
def broadcast [DecidableEq σ] (registry : List σ) (sendOk : σ → Bool)
    (msg : String) : TickResult σ :=
  if registry = [] then { attempts := [], registry := registry }
  else
    let passed := deliver_pass msg sendOk registry
    { attempts := passed.1
      registry := registry.filter (fun c => decide (c ∉ passed.2)) }

/-! ### Helper lemmas on the minimum timestamp -/

lemma foldl_min_le_init (es : List UsageEntry) (a : ℚ) :
    es.foldl (fun m x => min m x.tsUtc) a ≤ a := by
  induction es generalizing a with
  | nil => simp
  | cons x xs ih =>
      simp only [List.foldl_cons]
      exact le_trans (ih _) (min_le_left _ _)

lemma foldl_min_le_mem (es : List UsageEntry) (a : ℚ) :
    ∀ x ∈ es, es.foldl (fun m y => min m y.tsUtc) a ≤ x.tsUtc := by
  induction es generalizing a with
  | nil => intro x hx; cases hx
  | cons y ys ih =>
      intro x hx
      simp only [List.foldl_cons]
      rcases List.mem_cons.mp hx with h | h
      · subst h
        exact le_trans (foldl_min_le_init ys _) (min_le_right _ _)
      · exact ih (min a y.tsUtc) x h

lemma foldl_min_mem (es : List UsageEntry) (a : ℚ) :
    es.foldl (fun m y => min m y.tsUtc) a = a ∨
      ∃ x ∈ es, es.foldl (fun m y => min m y.tsUtc) a = x.tsUtc := by
  induction es generalizing a with
  | nil => left; rfl
  | cons y ys ih =>
      simp only [List.foldl_cons]
      rcases ih (min a y.tsUtc) with h | ⟨x, hx, hfx⟩
      · rcases min_choice a y.tsUtc with hm | hm
        · left; rw [h, hm]
        · right; exact ⟨y, List.mem_cons_self y ys, by rw [h, hm]⟩
      · right; exact ⟨x, List.mem_cons_of_mem _ hx, hfx⟩

/-- Model of `minTs?` answers exactly the least timestamp: if `m` is the timestamp of
a member and a lower bound of all timestamps, then `minTs? l = some m`. -/
lemma minTs?_eq_some_of_isMin (l : List UsageEntry) (m : ℚ)
    (hmem : ∃ e ∈ l, e.tsUtc = m) (hlb : ∀ e ∈ l, m ≤ e.tsUtc) :
    minTs? l = some m := by
  cases l with
  | nil => obtain ⟨e, he, _⟩ := hmem; cases he
  | cons e es =>
      simp only [minTs?, Option.some_inj]
      apply le_antisymm
      · obtain ⟨x, hx, hxm⟩ := hmem
        rw [← hxm]
        rcases List.mem_cons.mp hx with h | h
        · subst h; exact foldl_min_le_init es _
        · exact foldl_min_le_mem es _ x h
      · rcases foldl_min_mem es e.tsUtc with h | ⟨x, hx, h⟩
        · rw [h]; exact hlb e (List.mem_cons_self _ _)
        · rw [h]; exact hlb x (List.mem_cons_of_mem _ hx)

lemma minTs?_eq_none_iff (l : List UsageEntry) : minTs? l = none ↔ l = [] := by
  cases l <;> simp [minTs?]

/-- Evaluation of `calculate_session_info` when the window is empty. -/
lemma calculate_session_info_of_empty (entries : List UsageEntry) (W now : ℚ)
    (h : window_filter entries (now - 60 * W) = []) :
    calculate_session_info entries W now =
      { session_start := none, session_end := none, remaining_minutes := 0,
        is_active := false, tokens_in_window := 0, cost_in_window := 0 } := by
  unfold calculate_session_info
  rw [h]
  rfl

/-- Evaluation of `calculate_session_info` when the least timestamp in the
window is known. -/
lemma calculate_session_info_of_min (entries : List UsageEntry) (W now m : ℚ)
    (h : minTs? (window_filter entries (now - 60 * W)) = some m) :
    calculate_session_info entries W now =
      { session_start := some m
        session_end := some (m + 60 * W)
        remaining_minutes := max 0 (m + 60 * W - now)
        is_active := decide (0 < max 0 (m + 60 * W - now))
        tokens_in_window := ((window_filter entries (now - 60 * W)).map totalTokens).sum
        cost_in_window := ((window_filter entries (now - 60 * W)).map
          (fun e => e.cost_usd)).sum } := by
  unfold calculate_session_info
  rw [h]

/-- Claim C1: `sessionInfo` filters records with `timestamp ≥ now - windowHours`;
empty window gives an inactive zeroed session; otherwise `session_start` is
the least in-window timestamp, `session_end = session_start + windowHours`,
`remaining_minutes = max 0 (session_end - now)`, `is_active` holds exactly
when `remaining_minutes > 0`, and tokens/cost are summed over the window. -/
theorem C1_session_info (entries : List UsageEntry) (W now : ℚ) :
    (window_filter entries (now - 60 * W) = [] →
      calculate_session_info entries W now =
        { session_start := none, session_end := none, remaining_minutes := 0,
          is_active := false, tokens_in_window := 0, cost_in_window := 0 }) ∧
    (∀ m : ℚ, (∃ e ∈ window_filter entries (now - 60 * W), e.tsUtc = m) →
      (∀ e ∈ window_filter entries (now - 60 * W), m ≤ e.tsUtc) →
      (calculate_session_info entries W now).session_start = some m ∧
      (calculate_session_info entries W now).session_end = some (m + 60 * W) ∧
      (calculate_session_info entries W now).remaining_minutes =
        max 0 (m + 60 * W - now) ∧
      ((calculate_session_info entries W now).is_active = true ↔
        0 < (calculate_session_info entries W now).remaining_minutes) ∧
      (calculate_session_info entries W now).tokens_in_window =
        ((window_filter entries (now - 60 * W)).map totalTokens).sum ∧
      (calculate_session_info entries W now).cost_in_window =
        ((window_filter entries (now - 60 * W)).map (fun e => e.cost_usd)).sum) := by
  constructor
  · exact calculate_session_info_of_empty entries W now
  · intro m hmem hlb
    have h := minTs?_eq_some_of_isMin _ m hmem hlb
    rw [calculate_session_info_of_min entries W now m h]
    refine ⟨rfl, rfl, rfl, ?_, rfl, rfl⟩
    simp

/-- Witness for C1 at one record with timestamp 0 (minutes), window 5 h,
`now` = 60 min: the session started at the record, ends at 300, and 240
minutes remain. -/
theorem C1_session_info_witness :
    (calculate_session_info [⟨0, 0, true, 1, 2, 3, 4, 5, "m"⟩] 5 60).session_start =
      some 0 ∧
    (calculate_session_info [⟨0, 0, true, 1, 2, 3, 4, 5, "m"⟩] 5 60).remaining_minutes =
      240 ∧
    (calculate_session_info [⟨0, 0, true, 1, 2, 3, 4, 5, "m"⟩] 5 60).tokens_in_window =
      ((window_filter [⟨0, 0, true, 1, 2, 3, 4, 5, "m"⟩] (60 - 60 * 5)).map totalTokens).sum := by
  have h := (C1_session_info [⟨0, 0, true, 1, 2, 3, 4, 5, "m"⟩] 5 60).2 0
    (by norm_num [window_filter]) (by norm_num [window_filter])
  refine ⟨h.1, ?_, h.2.2.2.2.1⟩
  rw [h.2.2.1]
  norm_num

/-- Counterexample to claim C2 as stated: with records at minutes 0 and 200
and a 5-hour window, `remaining_minutes` at `now` = 301 (199 min) exceeds
`remaining_minutes` at `now` = 299 (1 min), because the record at 0 has
fallen out of the window and the session re-anchors to the record at 200. -/
theorem C2_counterexample :
    ¬ ((calculate_session_info
          [⟨0, 0, true, 0, 0, 0, 0, 0, ""⟩, ⟨200, 0, true, 0, 0, 0, 0, 0, ""⟩] 5 301).remaining_minutes ≤
        (calculate_session_info
          [⟨0, 0, true, 0, 0, 0, 0, 0, ""⟩, ⟨200, 0, true, 0, 0, 0, 0, 0, ""⟩] 5 299).remaining_minutes) := by
  have h2 : minTs? (window_filter
      [⟨0, 0, true, 0, 0, 0, 0, 0, ""⟩, ⟨200, 0, true, 0, 0, 0, 0, 0, ""⟩]
      ((301 : ℚ) - 60 * 5)) = some 200 := by
    norm_num [window_filter, minTs?]
  have h1 : minTs? (window_filter
      [⟨0, 0, true, 0, 0, 0, 0, 0, ""⟩, ⟨200, 0, true, 0, 0, 0, 0, 0, ""⟩]
      ((299 : ℚ) - 60 * 5)) = some 0 := by
    norm_num [window_filter, minTs?]
  rw [calculate_session_info_of_min _ 5 301 200 h2,
    calculate_session_info_of_min _ 5 299 0 h1]
  norm_num [max_le_iff, le_max_iff]

/-- Claim C2 (amended): with no new records, `remaining_minutes` is
non-increasing as `now` advances **as long as the earliest in-window record
does not fall out of the window** (the least in-window timestamp is the
same at both instants, or the window has become empty); re-anchoring to a
later first record can otherwise increase it. -/
theorem C2_remaining_monotone (entries : List UsageEntry) (W now₁ now₂ : ℚ)
    (h12 : now₁ ≤ now₂)
    (hmin : minTs? (window_filter entries (now₂ - 60 * W)) =
        minTs? (window_filter entries (now₁ - 60 * W)) ∨
      window_filter entries (now₂ - 60 * W) = []) :
    (calculate_session_info entries W now₂).remaining_minutes ≤
      (calculate_session_info entries W now₁).remaining_minutes := by
  have hnonneg : 0 ≤ (calculate_session_info entries W now₁).remaining_minutes := by
    cases h1 : minTs? (window_filter entries (now₁ - 60 * W)) with
    | none =>
        rw [calculate_session_info_of_empty entries W now₁
          ((minTs?_eq_none_iff _).mp h1)]
    | some m =>
        rw [calculate_session_info_of_min entries W now₁ m h1]
        exact le_max_left _ _
  rcases hmin with hmin | hempty
  · cases h1 : minTs? (window_filter entries (now₁ - 60 * W)) with
    | none =>
        rw [h1] at hmin
        rw [calculate_session_info_of_empty entries W now₂
          ((minTs?_eq_none_iff _).mp hmin)]
        exact hnonneg
    | some m =>
        rw [h1] at hmin
        rw [calculate_session_info_of_min entries W now₁ m h1,
          calculate_session_info_of_min entries W now₂ m hmin]
        exact max_le_max le_rfl (by linarith)
  · rw [calculate_session_info_of_empty entries W now₂ hempty]
    exact hnonneg

/-- Witness for the amended C2: one record at 0, window 5 h, `now` moving
from 10 to 20 keeps the same window minimum, and the remaining time does
not increase. -/
theorem C2_remaining_monotone_witness :
    (calculate_session_info [⟨0, 0, true, 0, 0, 0, 0, 0, ""⟩] 5 20).remaining_minutes ≤
      (calculate_session_info [⟨0, 0, true, 0, 0, 0, 0, 0, ""⟩] 5 10).remaining_minutes :=
  C2_remaining_monotone [⟨0, 0, true, 0, 0, 0, 0, 0, ""⟩] 5 10 20 (by norm_num)
    (Or.inl (by norm_num [window_filter, minTs?]))

/-- Evaluation of `calculate_burn_rate` when the window is empty. -/
lemma calculate_burn_rate_of_empty (entries : List UsageEntry) (mw now : ℚ)
    (h : window_filter entries (now - mw) = []) :
    calculate_burn_rate entries mw now =
      { tokens_per_minute := 0, cost_per_hour := 0 } := by
  unfold calculate_burn_rate
  rw [h]
  rfl

/-- Evaluation of `calculate_burn_rate` when the least recent timestamp is
known. -/
lemma calculate_burn_rate_of_min (entries : List UsageEntry) (mw now m : ℚ)
    (h : minTs? (window_filter entries (now - mw)) = some m) :
    calculate_burn_rate entries mw now =
      { tokens_per_minute :=
          round2 ((((window_filter entries (now - mw)).map totalTokens).sum : ℚ) /
            max (now - m) 1)
        cost_per_hour :=
          round4 (((window_filter entries (now - mw)).map (fun e => e.cost_usd)).sum /
            max (now - m) 1 * 60) } := by
  unfold calculate_burn_rate
  rw [h]

lemma round2_natCast (n : ℕ) : round2 (n : ℚ) = n := by
  unfold round2
  rw [show ((n : ℚ) * 100) = (((n * 100 : ℕ) : ℤ) : ℚ) by push_cast; ring,
    round_intCast]
  push_cast
  field_simp

/-- Claim C3: `burnRate` filters records with `timestamp ≥ now - minutesWindow`;
empty window gives a zero rate; otherwise, with span `max (now - min ts) 1`,
`tokens_per_minute = round₂(total tokens / span)` and
`cost_per_hour = round₄(total cost / span * 60)`; and a single record
timestamped `now` gives `tokens_per_minute` equal to its total tokens. -/
theorem C3_burn_rate (entries : List UsageEntry) (mw now : ℚ) :
    (window_filter entries (now - mw) = [] →
      calculate_burn_rate entries mw now =
        { tokens_per_minute := 0, cost_per_hour := 0 }) ∧
    (∀ m : ℚ, (∃ e ∈ window_filter entries (now - mw), e.tsUtc = m) →
      (∀ e ∈ window_filter entries (now - mw), m ≤ e.tsUtc) →
      (calculate_burn_rate entries mw now).tokens_per_minute =
        round2 ((((window_filter entries (now - mw)).map totalTokens).sum : ℚ) /
          max (now - m) 1) ∧
      (calculate_burn_rate entries mw now).cost_per_hour =
        round4 (((window_filter entries (now - mw)).map (fun e => e.cost_usd)).sum /
          max (now - m) 1 * 60)) ∧
    (∀ e : UsageEntry, 0 < mw → e.tsUtc = now →
      (calculate_burn_rate [e] mw now).tokens_per_minute = (totalTokens e : ℚ)) := by
  refine ⟨calculate_burn_rate_of_empty entries mw now, ?_, ?_⟩
  · intro m hmem hlb
    have h := minTs?_eq_some_of_isMin _ m hmem hlb
    rw [calculate_burn_rate_of_min entries mw now m h]
    exact ⟨rfl, rfl⟩
  · intro e hmw hts
    have hle : now - mw ≤ e.tsUtc := by rw [hts]; linarith
    have hfil : window_filter [e] (now - mw) = [e] := by
      simp only [window_filter, List.filter_eq_self, List.mem_singleton,
        decide_eq_true_eq]
      intro a ha
      rw [ha]
      exact hle
    have hmin : minTs? (window_filter [e] (now - mw)) = some now := by
      rw [hfil]
      simp [minTs?, hts]
    rw [calculate_burn_rate_of_min [e] mw now now hmin, hfil]
    simp [sub_self, max_eq_right (zero_le_one (α := ℚ)), round2_natCast]

/-- Witness for C3 at one record (total tokens 10) timestamped at `now`:
the burn rate is 10 tokens per minute. -/
theorem C3_burn_rate_witness :
    (calculate_burn_rate [⟨40, 0, true, 1, 2, 3, 4, 5, "m"⟩] 30 40).tokens_per_minute =
      ((totalTokens ⟨40, 0, true, 1, 2, 3, 4, 5, "m"⟩ : ℕ) : ℚ) :=
  (C3_burn_rate [⟨40, 0, true, 1, 2, 3, 4, 5, "m"⟩] 30 40).2.2
    ⟨40, 0, true, 1, 2, 3, 4, 5, "m"⟩ (by norm_num) rfl

/-! ### Cache claims -/

/-- Claim C4: after `set k v ttl` at `now₁` (so `expires_at = now₁ + ttl`),
a `get k` at `now₂ ≤ expires_at` returns exactly `v`, and a `get k`
strictly after `expires_at` returns absent and evicts the entry on that
very access. -/
theorem C4_cache_set_get {α : Type} (c : DataCache α) (k : String) (v : α)
    (ttl now₁ now₂ : ℚ) :
    (now₂ ≤ now₁ + ttl →
      (DataCache.get (DataCache.set c k v ttl now₁) k now₂).1 = some v) ∧
    (now₁ + ttl < now₂ →
      (DataCache.get (DataCache.set c k v ttl now₁) k now₂).1 = none ∧
      (DataCache.get (DataCache.set c k v ttl now₁) k now₂).2 k = none) := by
  have hk : (DataCache.set c k v ttl now₁) k =
      some { data := v, expires_at := now₁ + ttl } := by
    simp [DataCache.set]
  constructor
  · intro hle
    simp [DataCache.get, hk, DCacheEntry.is_expired, not_lt.mpr hle]
  · intro hlt
    simp [DataCache.get, hk, DCacheEntry.is_expired, hlt]

/-- Witness for C4: fresh cache, `set "k" 42` with ttl 10 at time 0;
`get` at time 5 answers 42, `get` at time 11 answers absent. -/
theorem C4_cache_set_get_witness :
    (DataCache.get (DataCache.set (fun _ => none : DataCache ℕ) "k" 42 10 0) "k" 5).1 =
      some 42 ∧
    (DataCache.get (DataCache.set (fun _ => none : DataCache ℕ) "k" 42 10 0) "k" 11).1 =
      none :=
  ⟨(C4_cache_set_get (fun _ => none) "k" 42 10 0 5).1 (by norm_num),
   ((C4_cache_set_get (fun _ => none) "k" 42 10 0 11).2 (by norm_num)).1⟩

/-- Claim C10 (implicit frame property of `DataCache.get`): a hit on an
unexpired entry returns the stored value and leaves the whole store
untouched (no expiry refresh, no other key modified); a hit on an expired
entry answers absent, evicts exactly that key and touches no other key; a
miss leaves the store untouched. -/
theorem C10_cache_get_frame {α : Type} (c : DataCache α) (k : String) (now : ℚ) :
    (∀ e : DCacheEntry α, c k = some e → now ≤ e.expires_at →
      DataCache.get c k now = (some e.data, c)) ∧
    (∀ e : DCacheEntry α, c k = some e → e.expires_at < now →
      (DataCache.get c k now).1 = none ∧
      (DataCache.get c k now).2 k = none ∧
      ∀ k₂ : String, k₂ ≠ k → (DataCache.get c k now).2 k₂ = c k₂) ∧
    (c k = none → DataCache.get c k now = (none, c)) := by
  refine ⟨?_, ?_, ?_⟩
  · intro e hke hfresh
    simp [DataCache.get, hke, DCacheEntry.is_expired, not_lt.mpr hfresh]
  · intro e hke hexp
    refine ⟨?_, ?_, ?_⟩
    · simp [DataCache.get, hke, DCacheEntry.is_expired, hexp]
    · simp [DataCache.get, hke, DCacheEntry.is_expired, hexp]
    · intro k₂ hne
      simp [DataCache.get, hke, DCacheEntry.is_expired, hexp, hne]
  · intro hnone
    simp [DataCache.get, hnone]

/-- Witness for C10 on the one-entry store `{"a" ↦ (7, expires 100)}`:
a `get "a"` at 50 is a pure hit, a `get "a"` at 150 evicts only `"a"` and
leaves `"b"` untouched. -/
theorem C10_cache_get_frame_witness :
    DataCache.get (fun k => if k = "a" then some ⟨(7 : ℕ), 100⟩ else none) "a" 50 =
      (some 7, fun k => if k = "a" then some ⟨(7 : ℕ), 100⟩ else none) ∧
    (DataCache.get (fun k => if k = "a" then some ⟨(7 : ℕ), 100⟩ else none) "a" 150).1 =
      none ∧
    (DataCache.get (fun k => if k = "a" then some ⟨(7 : ℕ), 100⟩ else none) "a" 150).2 "b" =
      (fun k => if k = "a" then some ⟨(7 : ℕ), 100⟩ else none) "b" :=
  ⟨(C10_cache_get_frame (fun k => if k = "a" then some ⟨(7 : ℕ), 100⟩ else none)
      "a" 50).1 ⟨7, 100⟩ rfl (by norm_num),
   ((C10_cache_get_frame (fun k => if k = "a" then some ⟨(7 : ℕ), 100⟩ else none)
      "a" 150).2.1 ⟨7, 100⟩ rfl (by norm_num)).1,
   ((C10_cache_get_frame (fun k => if k = "a" then some ⟨(7 : ℕ), 100⟩ else none)
      "a" 150).2.1 ⟨7, 100⟩ rfl (by norm_num)).2.2 "b" (by simp)⟩

/-! ### Broadcast claim -/

lemma deliver_pass_fst {σ : Type} (msg : String) (sendOk : σ → Bool) :
    ∀ cs : List σ, (deliver_pass msg sendOk cs).1 = cs.map (fun c => (c, msg))
  | [] => rfl
  | c :: cs => by
      simp only [deliver_pass, List.map_cons]
      rw [deliver_pass_fst msg sendOk cs]

lemma deliver_pass_snd {σ : Type} (msg : String) (sendOk : σ → Bool) :
    ∀ cs : List σ, (deliver_pass msg sendOk cs).2 = cs.filter (fun c => !sendOk c)
  | [] => rfl
  | c :: cs => by
      simp only [deliver_pass, List.filter_cons]
      rw [deliver_pass_snd msg sendOk cs]
      cases h : sendOk c <;> simp [h]

/-- Every registered subscriber gets one delivery attempt carrying the
payload, regardless of which sends fail. -/
lemma broadcast_attempts {σ : Type} [DecidableEq σ] (registry : List σ)
    (sendOk : σ → Bool) (msg : String) :
    (broadcast registry sendOk msg).attempts = registry.map (fun c => (c, msg)) := by
  by_cases hreg : registry = []
  · subst hreg; rfl
  · unfold broadcast
    rw [if_neg hreg]
    exact deliver_pass_fst msg sendOk registry

/-- The post-pass registry is exactly the subscribers whose send succeeded. -/
lemma broadcast_registry {σ : Type} [DecidableEq σ] (registry : List σ)
    (sendOk : σ → Bool) (msg : String) :
    (broadcast registry sendOk msg).registry = registry.filter (fun c => sendOk c) := by
  by_cases hreg : registry = []
  · subst hreg; rfl
  · unfold broadcast
    rw [if_neg hreg]
    simp only [deliver_pass_snd msg sendOk registry]
    apply List.filter_congr
    intro c hc
    cases h : sendOk c
    · simp [List.mem_filter, hc, h]
    · simp [List.mem_filter, h]

/-- Claim C6: one broadcast pass attempts the identical serialized payload
to every registered subscriber (a failure never stops the pass), the
registry is only cleaned after the full pass (exactly the failed
subscribers are removed, nothing else changes), and a subscriber whose
delivery failed in tick N is absent from the delivery set of tick N+1. -/
theorem C6_broadcast {σ : Type} [DecidableEq σ] (registry : List σ)
    (sendOk : σ → Bool) (msg : String) :
    (broadcast registry sendOk msg).attempts = registry.map (fun c => (c, msg)) ∧
    (broadcast registry sendOk msg).registry = registry.filter (fun c => sendOk c) ∧
    (∀ c ∈ registry, sendOk c = false → ∀ (sendOk₂ : σ → Bool) (msg₂ : String),
      c ∉ ((broadcast (broadcast registry sendOk msg).registry sendOk₂ msg₂).attempts.map
        Prod.fst)) := by
  refine ⟨broadcast_attempts registry sendOk msg,
    broadcast_registry registry sendOk msg, ?_⟩
  intro c hc hfail sendOk₂ msg₂ hmem
  rw [broadcast_attempts _ sendOk₂ msg₂, List.map_map] at hmem
  simp only [Function.comp_def] at hmem
  rw [List.map_id'] at hmem
  rw [broadcast_registry registry sendOk msg, List.mem_filter, hfail] at hmem
  exact Bool.false_ne_true hmem.2

/-- Witness for C6: the send to subscriber 1 fails in tick N over registry
`[1, 2]`; subscriber 1 receives no delivery attempt in tick N+1 even
though every send succeeds there. -/
theorem C6_broadcast_witness :
    (1 : ℕ) ∉ ((broadcast (broadcast [1, 2] (fun c => decide (c = 2)) "m").registry
      (fun _ => true) "n").attempts.map Prod.fst) :=
  (C6_broadcast [1, 2] (fun c => decide (c = 2)) "m").2.2 1 (by simp) (by simp)
    (fun _ => true) "n"

/-! ### Plan-usage prediction claim -/

/-- Claim C7: `planUsage` emits an exhaustion prediction iff the computed
burn rate has `tokens_per_minute > 0` and the current token total is
strictly below the token limit of the plan; when emitted, the predicted instant
is `now + (token_limit - current_tokens) / tokens_per_minute` minutes. -/
theorem C7_tokens_run_out (entries : List UsageEntry)
    (total_tokens token_limit : ℤ) (now : ℚ) :
    ((tokens_run_out entries total_tokens token_limit now).isSome = true ↔
      (0 < (calculate_burn_rate entries 30 now).tokens_per_minute ∧
        total_tokens < token_limit)) ∧
    (∀ t : ℚ, tokens_run_out entries total_tokens token_limit now = some t →
      t = now + ((token_limit : ℚ) - (total_tokens : ℚ)) /
        (calculate_burn_rate entries 30 now).tokens_per_minute) := by
  unfold tokens_run_out
  by_cases h : 0 < (calculate_burn_rate entries 30 now).tokens_per_minute ∧
      total_tokens < token_limit
  · rw [if_pos h]
    refine ⟨by simpa using h, ?_⟩
    intro t ht
    exact (Option.some_inj.mp ht).symm
  · rw [if_neg h]
    refine ⟨by simpa using h, ?_⟩
    intro t ht
    cases ht

/-- Witness for C7: one record of 100 tokens at `now = 0` gives a burn rate
of 100 tokens/min; with 50 tokens used of a 1000-token limit the predicted
exhaustion instant is `now + 950/100 = 9.5` minutes. -/
theorem C7_tokens_run_out_witness :
    ((19 : ℚ) / 2) = 0 + (((1000 : ℤ) : ℚ) - ((50 : ℤ) : ℚ)) /
      (calculate_burn_rate [⟨0, 0, true, 100, 0, 0, 0, 0, "m"⟩] 30 0).tokens_per_minute := by
  have hbr : calculate_burn_rate [⟨0, 0, true, 100, 0, 0, 0, 0, "m"⟩] 30 0 =
      { tokens_per_minute := 100, cost_per_hour := 0 } := by
    have hmin : minTs? (window_filter [⟨0, 0, true, 100, 0, 0, 0, 0, "m"⟩]
        ((0 : ℚ) - 30)) = some 0 := by
      norm_num [window_filter, minTs?]
    rw [calculate_burn_rate_of_min _ 30 0 0 hmin]
    norm_num [window_filter, totalTokens, round2, round4, round_intCast,
      max_eq_right (zero_le_one (α := ℚ))]
  exact (C7_tokens_run_out [⟨0, 0, true, 100, 0, 0, 0, 0, "m"⟩] 50 1000 0).2 (19 / 2)
    (by rw [tokens_run_out, hbr, if_pos (by norm_num)]; norm_num)

/-! ### Daily-filtering claim -/

/-- Counterexample to claim C5 as stated: the record at UTC minute 1380
(23:00 of day 0, stored in UTC) with a host zone at UTC+2h (`local_off` =
120) and `now` = 1500 (local date: day 1).  The today snapshot includes the
record (its local date is day 1) while the date-scoped query for today
excludes it (its own-zone date is day 0) — the two operations do not apply
one uniform date policy. -/
theorem C5_counterexample :
    (get_today_stats [⟨1380, 0, true, 1, 0, 0, 0, 0, "m"⟩] 120 1500).total_requests ≠
      (get_daily_stats [⟨1380, 0, true, 1, 0, 0, 0, 0, "m"⟩]
        (dateAt 1500 120)).total_requests := by
  have htoday : dateAt 1500 120 = 1 := by
    norm_num [dateAt]
  have htsd : tsDate (⟨1380, 0, true, 1, 0, 0, 0, 0, "m"⟩ : UsageEntry) = 0 := by
    norm_num [tsDate, dateAt]
  have hloc : dateAt (1380 : ℚ) 120 = 1 := by
    norm_num [dateAt]
  simp [get_today_stats, get_daily_stats, mkDailyStats, today_filter_pred,
    htoday, htsd, hloc]

/-- Claim C5 (amended): the two operations use different date policies —
the today snapshot admits a record when its own-zone **or** its host-zone
calendar date is today, while the date-scoped query compares only the
own-zone date of the record.  They agree (same filtered set, hence identical
stats) whenever the own-zone calendar date of every record coincides with its
host-local calendar date, e.g. when all records carry the host zone. -/
theorem C5_today_matches_daily (entries : List UsageEntry) (local_off : ℤ)
    (now : ℚ) (h : ∀ e ∈ entries, tsDate e = dateAt e.tsUtc local_off) :
    get_today_stats entries local_off now =
      get_daily_stats entries (dateAt now local_off) := by
  unfold get_today_stats get_daily_stats
  congr 1
  apply List.filter_congr
  intro e he
  rw [decide_eq_decide]
  unfold today_filter_pred
  rw [← h e he]
  cases e.hasTz <;> simp

/-- Witness for the amended C5: a record stored in the host zone
(`tzOffset` = `local_off` = 0) is classified identically by the today
snapshot and by the date-scoped query for today. -/
theorem C5_today_matches_daily_witness :
    get_today_stats [⟨100, 0, true, 1, 0, 0, 0, 0, "m"⟩] 0 200 =
      get_daily_stats [⟨100, 0, true, 1, 0, 0, 0, 0, "m"⟩] (dateAt 200 0) :=
  C5_today_matches_daily [⟨100, 0, true, 1, 0, 0, 0, 0, "m"⟩] 0 200
    (by intro e he; simp only [List.mem_singleton] at he; subst he; rfl)

/-! ### Sum helper lemmas -/

lemma sum_map_add_distrib {α M : Type} [AddCommMonoid M] (f g : α → M)
    (l : List α) :
    (l.map (fun x => f x + g x)).sum = (l.map f).sum + (l.map g).sum := by
  induction l with
  | nil => simp
  | cons a t ih =>
      simp only [List.map_cons, List.sum_cons, ih]
      exact add_add_add_comm _ _ _ _

lemma sum_map_sub_distrib {α : Type} (f g : α → ℚ) (l : List α) :
    (l.map (fun x => f x - g x)).sum = (l.map f).sum - (l.map g).sum := by
  induction l with
  | nil => simp
  | cons a t ih =>
      simp only [List.map_cons, List.sum_cons, ih]
      ring

lemma sum_filter_add_sum_filter_not {α M : Type} [AddCommMonoid M]
    (p : α → Bool) (w : α → M) (l : List α) :
    ((l.filter p).map w).sum + ((l.filter (fun a => !p a)).map w).sum =
      (l.map w).sum := by
  induction l with
  | nil => simp
  | cons a t ih =>
      cases hp : p a <;>
        simp only [List.filter_cons, hp, Bool.not_true, Bool.not_false,
          if_pos, if_true, if_false, cond_true, cond_false, List.map_cons,
          List.sum_cons, Bool.false_eq_true, Bool.true_eq_false] <;>
      · rw [← ih]
        abel

/-- Partitioning a sum by fibers of a classifying function: summing the
per-key fiber sums over a duplicate-free covering key list gives the total. -/
lemma sum_fiber {α κ M : Type} [DecidableEq κ] [AddCommMonoid M]
    (f : α → κ) (w : α → M) :
    ∀ (keys : List κ) (l : List α), keys.Nodup → (∀ a ∈ l, f a ∈ keys) →
      (keys.map (fun k => ((l.filter (fun a => decide (f a = k))).map w).sum)).sum =
        (l.map w).sum := by
  intro keys
  induction keys with
  | nil =>
      intro l _ hcov
      cases l with
      | nil => simp
      | cons a t => exact absurd (hcov a (List.mem_cons_self a t)) (List.not_mem_nil _)
  | cons k ks ih =>
      intro l hnd hcov
      have hknotin : k ∉ ks := (List.nodup_cons.mp hnd).1
      have hndks : ks.Nodup := (List.nodup_cons.mp hnd).2
      have hcov' : ∀ a ∈ l.filter (fun a => !decide (f a = k)), f a ∈ ks := by
        intro a ha
        have hal : a ∈ l := List.mem_of_mem_filter ha
        have hfa : ¬ f a = k := by simpa using List.of_mem_filter ha
        rcases List.mem_cons.mp (hcov a hal) with h | h
        · exact absurd h hfa
        · exact h
      have hfib : ∀ k' ∈ ks,
          ((l.filter (fun a => decide (f a = k'))).map w).sum =
            (((l.filter (fun a => !decide (f a = k))).filter
              (fun a => decide (f a = k'))).map w).sum := by
        intro k' hk'
        have hkk' : ¬ k' = k := fun h => hknotin (h ▸ hk')
        have : (l.filter (fun a => !decide (f a = k))).filter
            (fun a => decide (f a = k')) = l.filter (fun a => decide (f a = k')) := by
          rw [List.filter_filter]
          apply List.filter_congr
          intro a _
          by_cases h : f a = k'
          · simp [h, hkk']
          · simp [h]
        rw [this]
      simp only [List.map_cons, List.sum_cons]
      rw [List.map_congr_left hfib,
        ih (l.filter (fun a => !decide (f a = k))) hndks hcov']
      exact sum_filter_add_sum_filter_not (fun a => decide (f a = k)) w l

lemma abs_list_sum_le (l : List ℚ) : |l.sum| ≤ (l.map (fun x => |x|)).sum := by
  induction l with
  | nil => simp
  | cons a t ih =>
      simp only [List.sum_cons, List.map_cons]
      exact le_trans (abs_add _ _) (by linarith)

lemma list_sum_le_length_mul (l : List ℚ) (c : ℚ) (h : ∀ x ∈ l, x ≤ c) :
    l.sum ≤ (l.length : ℚ) * c := by
  induction l with
  | nil => simp
  | cons a t ih =>
      have ha := h a (List.mem_cons_self _ _)
      have ht := ih (fun x hx => h x (List.mem_cons_of_mem _ hx))
      simp only [List.sum_cons, List.length_cons, Nat.cast_succ, add_one_mul]
      linarith

lemma abs_round1_sub (x : ℚ) : |round1 x - x| ≤ 1 / 20 := by
  have h := abs_sub_round (x * 10)
  have heq : round1 x - x = -((x * 10 - (round (x * 10) : ℚ)) / 10) := by
    unfold round1
    ring
  rw [heq, abs_neg, abs_div]
  rw [show |(10 : ℚ)| = 10 by norm_num]
  linarith

/-! ### Model-distribution claim -/

/-- Counterexample to claim C8 as stated: model `"a"` has one record of 100
cache-creation tokens (total tokens 100, input+output 0), model `"b"` one
record of 100 input tokens.  Weighting by total tokens (the words of the claim)
gives `"a"` a 50% share, but the code weights by input+output tokens only
and gives `"a"` 0%. -/
theorem C8_counterexample :
    model_share [⟨0, 0, true, 0, 0, 100, 0, 0, "a"⟩, ⟨0, 0, true, 100, 0, 0, 0, 0, "b"⟩]
        "a" ≠
      model_share_by_total_tokens
        [⟨0, 0, true, 0, 0, 100, 0, 0, "a"⟩, ⟨0, 0, true, 100, 0, 0, 0, 0, "b"⟩] "a" := by
  have hf : model_tokens
      [⟨0, 0, true, 0, 0, 100, 0, 0, "a"⟩, ⟨0, 0, true, 100, 0, 0, 0, 0, "b"⟩] "a" = 0 := rfl
  have ht : total_model_tokens
      [⟨0, 0, true, 0, 0, 100, 0, 0, "a"⟩, ⟨0, 0, true, 100, 0, 0, 0, 0, "b"⟩] = 100 := rfl
  have h1 : model_share
      [⟨0, 0, true, 0, 0, 100, 0, 0, "a"⟩, ⟨0, 0, true, 100, 0, 0, 0, 0, "b"⟩] "a" = 0 := by
    simp [model_share, hf, ht, round1]
  have hw : ((([⟨0, 0, true, 0, 0, 100, 0, 0, "a"⟩,
      ⟨0, 0, true, 100, 0, 0, 0, 0, "b"⟩] : List UsageEntry).filter
        (fun e => decide (modelKey e = "a"))).map totalTokens).sum = 100 := rfl
  have htt : (([⟨0, 0, true, 0, 0, 100, 0, 0, "a"⟩,
      ⟨0, 0, true, 100, 0, 0, 0, 0, "b"⟩] : List UsageEntry).map totalTokens).sum = 200 := rfl
  have h2 : model_share_by_total_tokens
      [⟨0, 0, true, 0, 0, 100, 0, 0, "a"⟩, ⟨0, 0, true, 100, 0, 0, 0, 0, "b"⟩] "a" = 50 := by
    rw [model_share_by_total_tokens, hw, htt, if_pos (by norm_num)]
    rw [show (((100 : ℕ) : ℚ) / ((200 : ℕ) : ℚ) * 100) = 50 by norm_num]
    rw [round1, show ((50 : ℚ) * 10) = ((500 : ℤ) : ℚ) by norm_num, round_intCast]
    norm_num
  rw [h1, h2]
  norm_num

/-- Claim C8 (amended): in the fallback branch, `planUsage` recomputes the
per-model shares weighting each model by its **input+output** tokens (cache
creation/read tokens excluded) and normalizing by the input+output total;
all shares are 0 when that total is 0; when it is positive the unrounded
shares over the distinct models sum to exactly 100, the published share is
the unrounded share rounded to one decimal, and the published shares sum to
100 within the rounding slack (1/20 per model). -/
theorem C8_model_distribution (entries : List UsageEntry) :
    (total_model_tokens entries = 0 → ∀ m : String, model_share entries m = 0) ∧
    (0 < total_model_tokens entries →
      (∀ m : String, model_share entries m = round1 (unrounded_share entries m)) ∧
      (((entries.map modelKey).dedup).map (unrounded_share entries)).sum = 100 ∧
      |(((entries.map modelKey).dedup).map (model_share entries)).sum - 100| ≤
        ((((entries.map modelKey).dedup).length : ℚ) / 20)) := by
  constructor
  · intro h0 m
    simp [model_share, h0]
  · intro hpos
    have hT : ((total_model_tokens entries : ℕ) : ℚ) ≠ 0 :=
      (Nat.cast_pos.mpr hpos).ne'
    have hshare : ∀ m : String,
        model_share entries m = round1 (unrounded_share entries m) := by
      intro m
      simp [model_share, unrounded_share, hpos]
    have hfib := sum_fiber modelKey ioTokenWeight ((entries.map modelKey).dedup)
      entries (List.nodup_dedup _)
      (fun a ha => List.mem_dedup.mpr (List.mem_map_of_mem _ ha))
    have hsum100 :
        (((entries.map modelKey).dedup).map (unrounded_share entries)).sum = 100 := by
      have hrw : ((entries.map modelKey).dedup).map (unrounded_share entries) =
          ((entries.map modelKey).dedup).map
            (fun m => (model_tokens entries m : ℚ) * (100 / (total_model_tokens entries : ℚ))) := by
        apply List.map_congr_left
        intro m _
        rw [unrounded_share, div_mul_eq_mul_div, mul_div_assoc]
      rw [hrw, List.sum_map_mul_right]
      have hcast : (((entries.map modelKey).dedup).map
          (fun m => ((model_tokens entries m : ℕ) : ℚ))).sum =
          ((total_model_tokens entries : ℕ) : ℚ) := by
        rw [show ((entries.map modelKey).dedup).map
            (fun m => ((model_tokens entries m : ℕ) : ℚ)) =
            (((entries.map modelKey).dedup).map (model_tokens entries)).map
              (fun n : ℕ => (n : ℚ)) by rw [List.map_map]; rfl]
        rw [← Nat.cast_list_sum]
        exact_mod_cast congrArg (fun n : ℕ => (n : ℚ)) hfib
      rw [hcast]
      field_simp
    refine ⟨hshare, hsum100, ?_⟩
    have hmc : ((entries.map modelKey).dedup).map (model_share entries) =
        ((entries.map modelKey).dedup).map
          (fun m => round1 (unrounded_share entries m)) :=
      List.map_congr_left (fun m _ => hshare m)
    rw [hmc]
    have hdiff : (((entries.map modelKey).dedup).map
        (fun m => round1 (unrounded_share entries m))).sum - 100 =
        (((entries.map modelKey).dedup).map
          (fun m => round1 (unrounded_share entries m) - unrounded_share entries m)).sum := by
      rw [sum_map_sub_distrib, hsum100]
    rw [hdiff]
    refine le_trans (abs_list_sum_le _) ?_
    have hb : ∀ x ∈ (((entries.map modelKey).dedup).map
        (fun m => round1 (unrounded_share entries m) - unrounded_share entries m)).map
          (fun x => |x|), x ≤ 1 / 20 := by
      intro x hx
      rw [List.map_map, List.mem_map] at hx
      obtain ⟨m, _, rfl⟩ := hx
      exact abs_round1_sub _
    have hlen := list_sum_le_length_mul _ (1 / 20) hb
    rw [List.length_map, List.length_map] at hlen
    exact le_trans hlen (le_of_eq (by ring))

/-- Witness for the amended C8 on the two records of the counterexample:
input+output total is 100 > 0 and the unrounded shares sum to 100. -/
theorem C8_model_distribution_witness :
    ((([⟨0, 0, true, 0, 0, 100, 0, 0, "a"⟩, ⟨0, 0, true, 100, 0, 0, 0, 0, "b"⟩].map
        modelKey).dedup).map
      (unrounded_share
        [⟨0, 0, true, 0, 0, 100, 0, 0, "a"⟩, ⟨0, 0, true, 100, 0, 0, 0, 0, "b"⟩])).sum = 100 :=
  ((C8_model_distribution
      [⟨0, 0, true, 0, 0, 100, 0, 0, "a"⟩, ⟨0, 0, true, 100, 0, 0, 0, 0, "b"⟩]).2
    (by norm_num [total_model_tokens, ioTokenWeight])).2.1

/-! ### History claim -/

lemma mkDailyStats_date (d : ℤ) (l : List UsageEntry) : (mkDailyStats d l).date = d :=
  rfl

lemma calculate_token_breakdown_total (l : List UsageEntry) :
    (calculate_token_breakdown l).total_tokens = (l.map totalTokens).sum := by
  show (l.map (fun e => e.input_tokens)).sum + (l.map (fun e => e.output_tokens)).sum +
      (l.map (fun e => e.cache_creation_tokens)).sum +
      (l.map (fun e => e.cache_read_tokens)).sum = _
  rw [← sum_map_add_distrib (fun e : UsageEntry => e.input_tokens)
      (fun e => e.output_tokens) l,
    ← sum_map_add_distrib (fun e : UsageEntry => e.input_tokens + e.output_tokens)
      (fun e => e.cache_creation_tokens) l,
    ← sum_map_add_distrib
      (fun e : UsageEntry => e.input_tokens + e.output_tokens + e.cache_creation_tokens)
      (fun e => e.cache_read_tokens) l]
  rfl

lemma sorted_head?_le {l : List ℤ} (hs : l.Sorted (· ≤ ·)) {d : ℤ}
    (hd : l.head? = some d) : ∀ x ∈ l, d ≤ x := by
  cases l with
  | nil => cases hd
  | cons a t =>
      rw [List.head?_cons, Option.some_inj] at hd
      subst hd
      intro x hx
      rcases List.mem_cons.mp hx with rfl | hx
      · exact le_refl _
      · exact (List.sorted_cons.mp hs).1 x hx

lemma mem_of_getLast?_eq : ∀ {l : List ℤ} {d : ℤ}, l.getLast? = some d → d ∈ l := by
  intro l
  induction l with
  | nil => intro d h; cases h
  | cons a t ih =>
      intro d h
      cases t with
      | nil =>
          rw [List.getLast?_singleton, Option.some_inj] at h
          subst h
          exact List.mem_singleton_self _
      | cons b t' =>
          rw [List.getLast?_cons_cons] at h
          exact List.mem_cons_of_mem _ (ih h)

lemma sorted_le_getLast? : ∀ {l : List ℤ}, l.Sorted (· ≤ ·) →
    ∀ {d : ℤ}, l.getLast? = some d → ∀ x ∈ l, x ≤ d := by
  intro l
  induction l with
  | nil => intro _ d hd; cases hd
  | cons a t ih =>
      intro hs d hd x hx
      cases t with
      | nil =>
          rw [List.getLast?_singleton, Option.some_inj] at hd
          subst hd
          rcases List.mem_cons.mp hx with rfl | h
          · exact le_refl _
          · cases h
      | cons b t' =>
          rw [List.getLast?_cons_cons] at hd
          rcases List.mem_cons.mp hx with rfl | h
          · exact (List.sorted_cons.mp hs).1 d (mem_of_getLast?_eq hd)
          · exact ih (List.sorted_cons.mp hs).2 hd x h

/-- Claim C9: `history` emits one per-day entry per calendar date present
(each the daily aggregation of the records of that date), sorted strictly
ascending by date; the reported totals are the sums of the per-day totals
(equivalently, the totals over all records); the date range is the
first/last date present, or both absent exactly when there is no data. -/
theorem C9_history (entries : List UsageEntry) (days : ℕ) :
    ((get_history entries days).daily_stats.map (fun ds => ds.date)).Pairwise (· < ·) ∧
    (∀ d : ℤ, d ∈ (get_history entries days).daily_stats.map (fun ds => ds.date) ↔
      ∃ e ∈ entries, tsDate e = d) ∧
    (∀ ds ∈ (get_history entries days).daily_stats,
      ds = mkDailyStats ds.date (entries.filter (fun e => decide (tsDate e = ds.date)))) ∧
    (get_history entries days).total_tokens =
      ((get_history entries days).daily_stats.map (fun ds => ds.tokens.total_tokens)).sum ∧
    (get_history entries days).total_tokens = (entries.map totalTokens).sum ∧
    (get_history entries days).total_cost_usd =
      ((get_history entries days).daily_stats.map (fun ds => ds.total_cost_usd)).sum ∧
    (get_history entries days).total_cost_usd = (entries.map (fun e => e.cost_usd)).sum ∧
    ((get_history entries days).range_start = none ↔ entries = []) ∧
    ((get_history entries days).range_end = none ↔ entries = []) ∧
    (∀ d : ℤ, (get_history entries days).range_start = some d →
      (∃ e ∈ entries, tsDate e = d) ∧ ∀ e ∈ entries, d ≤ tsDate e) ∧
    (∀ d : ℤ, (get_history entries days).range_end = some d →
      (∃ e ∈ entries, tsDate e = d) ∧ ∀ e ∈ entries, tsDate e ≤ d) := by
  have hdm : (history_daily entries).map (fun ds => ds.date) = history_dates entries := by
    rw [history_daily, List.map_map]
    rw [show ((fun ds : DailyStatsResponse => ds.date) ∘
        (fun d => mkDailyStats d (entries.filter (fun e => decide (tsDate e = d))))) =
      (fun d : ℤ => d) from rfl]
    exact List.map_id' _
  have hsorted : (history_dates entries).Sorted (· ≤ ·) :=
    List.sorted_insertionSort _ _
  have hperm : (history_dates entries).Perm ((entries.map tsDate).dedup) :=
    List.perm_insertionSort _ _
  have hnd : (history_dates entries).Nodup :=
    hperm.nodup_iff.mpr (List.nodup_dedup _)
  have hmemdates : ∀ d : ℤ, d ∈ history_dates entries ↔ ∃ e ∈ entries, tsDate e = d := by
    intro d
    rw [hperm.mem_iff, List.mem_dedup, List.mem_map]
  have hdatesnil : history_dates entries = [] ↔ entries = [] := by
    rw [← List.length_eq_zero, hperm.length_eq, List.length_eq_zero,
      List.dedup_eq_nil, List.map_eq_nil_iff]
  have hrs : (get_history entries days).range_start = (history_dates entries).head? := by
    show (history_daily entries).head?.map (fun ds => ds.date) = _
    rw [history_daily, List.head?_map, Option.map_map]
    rw [show ((fun ds : DailyStatsResponse => ds.date) ∘
        (fun d => mkDailyStats d (entries.filter (fun e => decide (tsDate e = d))))) =
      (fun d : ℤ => d) from rfl]
    cases (history_dates entries).head? <;> rfl
  have hre : (get_history entries days).range_end = (history_dates entries).getLast? := by
    show (history_daily entries).getLast?.map (fun ds => ds.date) = _
    rw [history_daily, List.getLast?_map, Option.map_map]
    rw [show ((fun ds : DailyStatsResponse => ds.date) ∘
        (fun d => mkDailyStats d (entries.filter (fun e => decide (tsDate e = d))))) =
      (fun d : ℤ => d) from rfl]
    cases (history_dates entries).getLast? <;> rfl
  refine ⟨?_, ?_, ?_, rfl, ?_, rfl, ?_, ?_, ?_, ?_, ?_⟩
  · show ((history_daily entries).map (fun ds => ds.date)).Pairwise (· < ·)
    rw [hdm]
    exact (List.Pairwise.and hsorted hnd).imp (fun h => lt_of_le_of_ne h.1 h.2)
  · intro d
    show d ∈ (history_daily entries).map (fun ds => ds.date) ↔ _
    rw [hdm]
    exact hmemdates d
  · intro ds hds
    rw [show (get_history entries days).daily_stats = history_daily entries from rfl,
      history_daily, List.mem_map] at hds
    obtain ⟨d, _, rfl⟩ := hds
    rw [mkDailyStats_date]
  · show ((history_daily entries).map (fun ds => ds.tokens.total_tokens)).sum = _
    rw [history_daily, List.map_map]
    rw [List.map_congr_left (fun d _ => by
      show (mkDailyStats d (entries.filter (fun e => decide (tsDate e = d)))).tokens.total_tokens = ((entries.filter (fun e => decide (tsDate e = d))).map totalTokens).sum
      exact calculate_token_breakdown_total _)]
    rw [(hperm.map _).sum_eq]
    exact sum_fiber tsDate totalTokens _ entries (List.nodup_dedup _)
      (fun a ha => List.mem_dedup.mpr (List.mem_map_of_mem _ ha))
  · show ((history_daily entries).map (fun ds => ds.total_cost_usd)).sum = _
    rw [history_daily, List.map_map]
    rw [show ((fun ds : DailyStatsResponse => ds.total_cost_usd) ∘
        (fun d => mkDailyStats d (entries.filter (fun e => decide (tsDate e = d))))) =
      (fun d : ℤ => ((entries.filter (fun e => decide (tsDate e = d))).map
        (fun e => e.cost_usd)).sum) from rfl]
    rw [(hperm.map _).sum_eq]
    exact sum_fiber tsDate (fun e => e.cost_usd) _ entries (List.nodup_dedup _)
      (fun a ha => List.mem_dedup.mpr (List.mem_map_of_mem _ ha))
  · rw [hrs, ← hdatesnil]
    exact List.head?_eq_none_iff
  · rw [hre, ← hdatesnil]
    exact List.getLast?_eq_none_iff
  · intro d hd
    rw [hrs] at hd
    have hdmem : d ∈ history_dates entries := List.mem_of_mem_head? (by rw [hd]; rfl)
    refine ⟨(hmemdates d).mp hdmem, ?_⟩
    intro e he
    exact sorted_head?_le hsorted hd (tsDate e) ((hmemdates (tsDate e)).mpr ⟨e, he, rfl⟩)
  · intro d hd
    rw [hre] at hd
    have hdmem : d ∈ history_dates entries := mem_of_getLast?_eq hd
    refine ⟨(hmemdates d).mp hdmem, ?_⟩
    intro e he
    exact sorted_le_getLast? hsorted hd (tsDate e) ((hmemdates (tsDate e)).mpr ⟨e, he, rfl⟩)

/-- Witness for C9: with records on day 1 (minute 2000) and day 0 (minute 0),
day 0 appears among the emitted per-day dates. -/
theorem C9_history_witness :
    (0 : ℤ) ∈ ((get_history
      [⟨2000, 0, true, 1, 0, 0, 0, 0, "m"⟩, ⟨0, 0, true, 2, 0, 0, 0, 0, "m"⟩]
      30).daily_stats.map (fun ds => ds.date)) :=
  ((C9_history
      [⟨2000, 0, true, 1, 0, 0, 0, 0, "m"⟩, ⟨0, 0, true, 2, 0, 0, 0, 0, "m"⟩]
      30).2.1 0).mpr
    ⟨⟨0, 0, true, 2, 0, 0, 0, 0, "m"⟩, by norm_num, by norm_num [tsDate, dateAt]⟩

end UsageDashboard
